import Mathlib

/-!
Verification of the prediction-and-explanation engine of the
infidelity-predictor repository.

The repository trains a bagged decision-tree ensemble (scikit-learn
`RandomForestClassifier`, `scripts/train_model.py`) with median imputation
(`SimpleImputer(strategy="median")`) and serves it from a Streamlit app
(`app/main.py`) that computes per-feature additive attributions
(`shap.TreeExplainer`), ranks them, and renders a risk gauge.

The forest, imputer and attribution algorithms live in the scikit-learn
and shap libraries, outside the repository's source tree; those parts are
modelled here from the design document (sections 4.1-4.5).  Everything on
the serving path (`app/main.py`) and the training script's feature/label
preparation (`scripts/train_model.py`) is translated directly from the
source.  Real numbers are modelled by `ℚ`; exact rational identities imply
the floating-point tolerance claims.
-/

namespace InfidelityPredictor

/-- Modelled from the spec: the decision trees grown by the forest trainer
(spec sections 4.2-4.3); the tree implementation is scikit-learn's, outside
this repository's source.  A leaf stores the weight (count of training rows
that reached it) and the positive-class probability; an internal node stores
the split feature index and threshold (vector goes left when
`value ≤ threshold`). -/
inductive Tree where
  | leaf (w : ℚ) (p : ℚ)
  | node (f : ℕ) (t : ℚ) (l : Tree) (r : Tree)
deriving DecidableEq

/-- Total training weight below a tree node. -/
def Tree.weight : Tree → ℚ
  | .leaf w _ => w
  | .node _ _ l r => l.weight + r.weight

/-- Expected output at a node: at a leaf its stored probability, at an
internal node the training-weighted average of the children (spec 4.5:
"the expected output if the feature were unknown is the training-weighted
average of both children"). -/
def Tree.value : Tree → ℚ
  | .leaf _ p => p
  | .node _ _ l r => (l.weight * l.value + r.weight * r.value) / (l.weight + r.weight)

/-- Walk an input vector to a leaf and return the leaf probability. -/
def Tree.predict : Tree → (ℕ → ℚ) → ℚ
  | .leaf _ p, _ => p
  | .node f t l r, v => if v f ≤ t then l.predict v else r.predict v

/-- Modelled from the spec (4.5): the per-feature attribution of one tree.
Walking from the root to the leaf reached by `v`, the splitting feature of
each traversed node receives the difference between the expectation after
observing the test result (the taken child's value) and the expectation
before observing it (the node's value); contributions of a feature that
recurs on the path accumulate. -/
def Tree.contrib : Tree → (ℕ → ℚ) → ℕ → ℚ
  | .leaf _ _, _, _ => 0
  | .node f t l r, v, g =>
      if v f ≤ t then
        (if g = f then l.value - (Tree.node f t l r).value else 0) + l.contrib v g
      else
        (if g = f then r.value - (Tree.node f t l r).value else 0) + r.contrib v g

/-- All feature indices that appear as split features in a tree. -/
def Tree.features : Tree → Finset ℕ
  | .leaf _ _ => ∅
  | .node f _ l r => insert f (l.features ∪ r.features)

/-- Summing a tree's per-feature contributions over any feature set that
covers its split features telescopes to `leaf value − root value`
(spec 4.5: "summing these marginal differences along the single path from
root to the reached leaf yields a decomposition exactly equal to
`leaf_value − root_value`"). -/
lemma Tree.sum_contrib (tr : Tree) (v : ℕ → ℚ) (s : Finset ℕ)
    (hs : tr.features ⊆ s) :
    ∑ g ∈ s, tr.contrib v g = tr.predict v - tr.value := by
  induction tr with
  | leaf w p => simp [Tree.contrib, Tree.predict, Tree.value]
  | node f t l r ihl ihr =>
    have hf : f ∈ s := hs (by simp [Tree.features])
    have hls : l.features ⊆ s := by
      refine Finset.Subset.trans ?_ hs
      intro x hx
      simp [Tree.features]
      exact Or.inr (Or.inl hx)
    have hrs : r.features ⊆ s := by
      refine Finset.Subset.trans ?_ hs
      intro x hx
      simp [Tree.features]
      exact Or.inr (Or.inr hx)
    by_cases h : v f ≤ t
    · simp only [Tree.contrib, h, if_true]
      rw [Finset.sum_add_distrib, ihl hls, Finset.sum_ite_eq' s f
        (fun _ => l.value - (Tree.node f t l r).value), if_pos hf]
      simp only [Tree.predict, h, if_true]
      ring
    · simp only [Tree.contrib, h, if_false]
      rw [Finset.sum_add_distrib, ihr hrs, Finset.sum_ite_eq' s f
        (fun _ => r.value - (Tree.node f t l r).value), if_pos hf]
      simp only [Tree.predict, h, if_false]
      ring

/-- Modelled from the spec (4.3): the ensemble's predicted positive-class
probability is the arithmetic mean of the trees' leaf probabilities. -/
def Forest.predictProba (E : List Tree) (v : ℕ → ℚ) : ℚ :=
  (E.map fun t => t.predict v).sum / E.length

/-- Modelled from the spec (4.5): the attribution base value is the average
of the trees' root values (the population-average prediction). -/
def Forest.baseValue (E : List Tree) : ℚ :=
  (E.map Tree.value).sum / E.length

/-- Modelled from the spec (4.5): the ensemble's per-feature attribution is
the average of the trees' per-feature contributions. -/
def Forest.contrib (E : List Tree) (v : ℕ → ℚ) (g : ℕ) : ℚ :=
  (E.map fun t => t.contrib v g).sum / E.length

/-- All split features appearing anywhere in the ensemble. -/
def Forest.features (E : List Tree) : Finset ℕ :=
  E.foldr (fun t acc => t.features ∪ acc) ∅

lemma Forest.features_cons (a : Tree) (l : List Tree) :
    Forest.features (a :: l) = a.features ∪ Forest.features l := rfl

lemma Forest.features_subset {t : Tree} {E : List Tree} (h : t ∈ E) :
    t.features ⊆ Forest.features E := by
  induction E with
  | nil => cases h
  | cons a l ih =>
    rw [Forest.features_cons]
    rcases List.mem_cons.mp h with h1 | h2
    · subst h1
      exact Finset.subset_union_left
    · exact Finset.Subset.trans (ih h2) Finset.subset_union_right

lemma list_map_sum_sub (E : List Tree) (f g : Tree → ℚ) :
    (E.map fun t => f t - g t).sum = (E.map f).sum - (E.map g).sum := by
  induction E with
  | nil => simp
  | cons a l ih =>
    simp only [List.map_cons, List.sum_cons, ih]
    ring

lemma finset_sum_list_sum (s : Finset ℕ) (E : List Tree) (f : Tree → ℕ → ℚ) :
    ∑ g ∈ s, (E.map fun t => f t g).sum = (E.map fun t => ∑ g ∈ s, f t g).sum := by
  induction E with
  | nil => simp
  | cons a l ih =>
    simp only [List.map_cons, List.sum_cons, Finset.sum_add_distrib, ih]

/-- Claim C1: for every trained ensemble and every input feature vector,
the attribution base value plus the sum of the per-feature signed
contributions over all split features equals the ensemble's raw
positive-class probability output — exactly, hence within the absolute
tolerance `1e-6`. -/
theorem c1_attribution_additivity (E : List Tree) (v : ℕ → ℚ) :
    Forest.baseValue E + ∑ g ∈ Forest.features E, Forest.contrib E v g =
      Forest.predictProba E v ∧
    |Forest.baseValue E + (∑ g ∈ Forest.features E, Forest.contrib E v g) -
      Forest.predictProba E v| ≤ 1 / 1000000 := by
  have key : Forest.baseValue E + ∑ g ∈ Forest.features E, Forest.contrib E v g =
      Forest.predictProba E v := by
    unfold Forest.baseValue Forest.contrib Forest.predictProba
    rw [← Finset.sum_div, div_add_div_same]
    rw [finset_sum_list_sum]
    have hmap : (E.map fun t => ∑ g ∈ Forest.features E, t.contrib v g) =
        E.map fun t => t.predict v - t.value := by
      refine List.map_congr_left ?_
      intro t ht
      exact Tree.sum_contrib t v (Forest.features E) (Forest.features_subset ht)
    rw [hmap, list_map_sum_sub]
    ring_nf
  refine ⟨key, ?_⟩
  rw [key, sub_self, abs_zero]
  norm_num

/-- A demonstration tree used by concrete witnesses: one split on feature 0
at threshold 1/2, with two unit-weight leaves of probabilities 0 and 1. -/
def demoTree : Tree := Tree.node 0 (1/2) (Tree.leaf 1 0) (Tree.leaf 1 1)

/-- Witness for C1 at a concrete one-tree ensemble and the zero vector. -/
theorem c1_attribution_additivity_witness :
    Forest.baseValue [demoTree] +
        ∑ g ∈ Forest.features [demoTree], Forest.contrib [demoTree] (fun _ => 0) g =
      Forest.predictProba [demoTree] (fun _ => 0) ∧
    |Forest.baseValue [demoTree] +
        (∑ g ∈ Forest.features [demoTree], Forest.contrib [demoTree] (fun _ => 0) g) -
      Forest.predictProba [demoTree] (fun _ => 0)| ≤ 1 / 1000000 :=
  c1_attribution_additivity [demoTree] (fun _ => 0)

/-- A trained tree is well formed when every leaf has positive weight and a
leaf probability in `[0,1]` (leaves store class-probability distributions of
the rows that reached them). -/
def Tree.wf : Tree → Prop
  | .leaf w p => 0 < w ∧ 0 ≤ p ∧ p ≤ 1
  | .node _ _ l r => l.wf ∧ r.wf

lemma Tree.predict_nonneg {tr : Tree} (v : ℕ → ℚ) (h : tr.wf) :
    0 ≤ tr.predict v := by
  induction tr with
  | leaf w p => exact h.2.1
  | node f t l r ihl ihr =>
    rcases h with ⟨hl, hr⟩
    simp only [Tree.predict]
    by_cases hc : v f ≤ t
    · simpa [hc] using ihl hl
    · simpa [hc] using ihr hr

lemma Tree.predict_le_one {tr : Tree} (v : ℕ → ℚ) (h : tr.wf) :
    tr.predict v ≤ 1 := by
  induction tr with
  | leaf w p => exact h.2.2
  | node f t l r ihl ihr =>
    rcases h with ⟨hl, hr⟩
    simp only [Tree.predict]
    by_cases hc : v f ≤ t
    · simpa [hc] using ihl hl
    · simpa [hc] using ihr hr

lemma list_map_sum_le_length (E : List Tree) (f : Tree → ℚ)
    (h : ∀ t ∈ E, f t ≤ 1) : (E.map f).sum ≤ (E.length : ℚ) := by
  induction E with
  | nil => simp
  | cons a l ih =>
    simp only [List.map_cons, List.sum_cons, List.length_cons]
    push_cast
    have ha : f a ≤ 1 := h a (List.mem_cons_self a l)
    have hl : (l.map f).sum ≤ (l.length : ℚ) := ih fun t ht => h t (List.mem_cons_of_mem a ht)
    linarith

/-- Claim C6: for every input feature vector (in particular the imputed
image of an all-missing vector), the ensemble's predicted positive-class
probability lies in `[0,1]`: it is the arithmetic mean of leaf
class-probabilities. -/
theorem c6_predict_proba_bounded (E : List Tree) (v : ℕ → ℚ)
    (hwf : ∀ t ∈ E, t.wf) :
    0 ≤ Forest.predictProba E v ∧ Forest.predictProba E v ≤ 1 := by
  unfold Forest.predictProba
  rcases List.eq_nil_or_concat E with h | _
  · subst h
    simp
  constructor
  · apply div_nonneg
    · apply List.sum_nonneg
      intro x hx
      rcases List.mem_map.mp hx with ⟨t, ht, rfl⟩
      exact Tree.predict_nonneg v (hwf t ht)
    · positivity
  · rcases Nat.eq_zero_or_pos E.length with hz | hpos
    · simp [hz, List.length_eq_zero.mp hz]
    · rw [div_le_one (by exact_mod_cast hpos)]
      exact list_map_sum_le_length E _ fun t ht => Tree.predict_le_one v (hwf t ht)

/-- Witness for C6 at a concrete one-tree ensemble and the zero vector. -/
theorem c6_predict_proba_bounded_witness :
    0 ≤ Forest.predictProba [demoTree] (fun _ => 0) ∧
    Forest.predictProba [demoTree] (fun _ => 0) ≤ 1 := by
  refine c6_predict_proba_bounded [demoTree] (fun _ => 0) ?_
  intro t ht
  rw [List.mem_singleton.mp ht]
  refine ⟨⟨?_, ?_, ?_⟩, ?_, ?_, ?_⟩ <;> norm_num

/-- Modelled from the spec (4.1): `SimpleImputer.transform` — the imputer
implementation is scikit-learn's, outside this repository's source.  A
feature vector over the fixed schema has an optional entry per feature
(`none` = missing); `transform` returns the vector over the schema where
every missing entry is replaced by the stored fill value. -/
def transform (fill : List ℚ) (v : List (Option ℚ)) : List (Option ℚ) :=
  (List.range fill.length).map fun i => some ((v.getD i none).getD (fill.getD i 0))

lemma transform_getD (fill : List ℚ) (v : List (Option ℚ)) {i : ℕ}
    (hi : i < fill.length) :
    (transform fill v).getD i none = some ((v.getD i none).getD (fill.getD i 0)) := by
  unfold transform
  rw [List.getD_eq_getElem?_getD, List.getElem?_map, List.getElem?_range hi]
  rfl

/-- Claim C7: for every fitted imputer (list of per-feature fill values) and
every feature vector, transforming an already-transformed vector is a no-op:
`transform (transform v) = transform v`. -/
theorem c7_transform_idempotent (fill : List ℚ) (v : List (Option ℚ)) :
    transform fill (transform fill v) = transform fill v := by
  have step : ∀ i ∈ List.range fill.length,
      some (((transform fill v).getD i none).getD (fill.getD i 0)) =
        some ((v.getD i none).getD (fill.getD i 0)) := by
    intro i hi
    rw [transform_getD fill v (List.mem_range.mp hi)]
    rfl
  calc transform fill (transform fill v)
      = (List.range fill.length).map
          (fun i => some (((transform fill v).getD i none).getD (fill.getD i 0))) := rfl
    _ = (List.range fill.length).map
          (fun i => some ((v.getD i none).getD (fill.getD i 0))) :=
        List.map_congr_left step
    _ = transform fill v := rfl

/-- The non-missing observations of feature column `f` across the training
rows (a row is a list of optional feature values; a short row leaves the
remaining features missing). -/
def colVals (f : ℕ) (rows : List (List (Option ℚ))) : List ℚ :=
  rows.filterMap fun r => r.getD f none

/-- Modelled from the spec (4.1): the median of a list of rationals — sort,
take the middle element (odd length) or the mean of the two middle elements
(even length); the numpy median used by scikit-learn's `SimpleImputer`. -/
def medianQ (l : List ℚ) : ℚ :=
  let s := List.insertionSort (fun a b => a ≤ b) l
  if l.length % 2 = 1 then s.getD (l.length / 2) 0
  else (s.getD (l.length / 2 - 1) 0 + s.getD (l.length / 2) 0) / 2

/-- Modelled from the spec (4.1): fitting the imputer over a list of feature
columns: the fill value of each column is the median of its non-missing
observations, and a column with zero non-missing observations fails the fit
with `EmptyColumnError`. -/
def fitCols : List ℕ → (ℕ → List ℚ) → Except String (List ℚ)
  | [], _ => .ok []
  | f :: fs, col =>
      if col f = [] then .error "EmptyColumnError"
      else
        match fitCols fs col with
        | .error e => .error e
        | .ok ms => .ok (medianQ (col f) :: ms)

/-- Modelled from the spec (4.1): `Imputer.fit` over a training table with
`nf` feature columns. -/
def Imputer.fit (nf : ℕ) (rows : List (List (Option ℚ))) : Except String (List ℚ) :=
  fitCols (List.range nf) fun f => colVals f rows

lemma fitCols_spec (fs : List ℕ) (col : ℕ → List ℚ) :
    (fitCols fs col = .error "EmptyColumnError" ↔ ∃ f ∈ fs, col f = []) ∧
    ((∀ f ∈ fs, col f ≠ []) →
      fitCols fs col = .ok (fs.map fun f => medianQ (col f))) := by
  induction fs with
  | nil =>
    constructor
    · constructor
      · intro h
        exact absurd h (by simp [fitCols])
      · rintro ⟨f, hf, -⟩
        cases hf
    · intro _
      simp [fitCols]
  | cons f fs ih =>
    by_cases hf : col f = []
    · constructor
      · constructor
        · intro _
          exact ⟨f, List.mem_cons_self f fs, hf⟩
        · intro _
          simp [fitCols, hf]
      · intro hall
        exact absurd hf (hall f (List.mem_cons_self f fs))
    · constructor
      · constructor
        · intro h
          simp only [fitCols, if_neg hf] at h
          rcases hrec : fitCols fs col with e | ms
          · rw [hrec] at h
            have he : e = "EmptyColumnError" := by
              simpa using h
            rcases (ih.1).mp (by rw [hrec, he]) with ⟨g, hg, hge⟩
            exact ⟨g, List.mem_cons_of_mem f hg, hge⟩
          · rw [hrec] at h
            simp at h
        · rintro ⟨g, hg, hge⟩
          rcases List.mem_cons.mp hg with h1 | h2
          · subst h1
            exact absurd hge hf
          · have : fitCols fs col = .error "EmptyColumnError" :=
              (ih.1).mpr ⟨g, h2, hge⟩
            simp [fitCols, hf, this]
      · intro hall
        have hrec : fitCols fs col = .ok (fs.map fun g => medianQ (col g)) :=
          ih.2 fun g hg => hall g (List.mem_cons_of_mem f hg)
        simp [fitCols, hf, hrec]

/-- Claim C4: fitting the imputer fails with `EmptyColumnError` exactly when
some feature column has zero non-missing observations; otherwise it stores,
per feature, the median of that feature's non-missing values. -/
theorem c4_imputer_fit (nf : ℕ) (rows : List (List (Option ℚ))) :
    (Imputer.fit nf rows = .error "EmptyColumnError" ↔
      ∃ f ∈ List.range nf, colVals f rows = []) ∧
    ((∀ f ∈ List.range nf, colVals f rows ≠ []) →
      Imputer.fit nf rows =
        .ok ((List.range nf).map fun f => medianQ (colVals f rows))) :=
  fitCols_spec (List.range nf) fun f => colVals f rows

/-- Witness for C4: a one-feature table whose single observation is missing
fails the fit, and a fully observed table stores the column medians. -/
theorem c4_imputer_fit_witness :
    Imputer.fit 1 [[(none : Option ℚ)]] = .error "EmptyColumnError" ∧
    Imputer.fit 1 [[(some (3 : ℚ))]] = .ok [3] :=
  ⟨(c4_imputer_fit 1 [[none]]).1.mpr ⟨0, by decide, by decide⟩,
   by
    have h := (c4_imputer_fit 1 [[(some (3 : ℚ))]]).2 (by decide)
    simpa using h⟩

/-- The pandas `notna` mask over an already integer-cast label column: every
integer label is non-null, so the mask is identically true
(`train_model.py` line 72, evaluated after the cast on line 69). -/
def notnaInt (_y : ℤ) : Bool := true

/-- Translated from `scripts/train_model.py` lines 69-74: the label column is
first cast with `astype(int)` — which raises a `ValueError` as soon as any
label is null (pandas cannot convert non-finite values to integer) — and only
afterwards is the `notna` mask computed and applied to drop null-label rows. -/
def prepareLabels (labels : List (Option ℤ)) : Except String (List ℤ) :=
  match labels.mapM (fun o => match o with
    | some y => Except.ok y
    | none => Except.error "ValueError") with
  | .error e => .error e
  | .ok ys => .ok (ys.filter notnaInt)

/-- Claim C5: evaluating the label-preparation code on a training table with
a null outcome label.  The cast `y = df[TARGET].astype(int)` on line 69 runs
before the `notna` mask of lines 72-74, so a null label raises a `ValueError`
instead of being dropped silently; when no label is null, the mask drops
nothing. -/
theorem c5_null_label_raises :
    prepareLabels [some 1, none] = .error "ValueError" ∧
    prepareLabels [some 1, some 0] = .ok [1, 0] := by
  constructor <;> rfl

/-- The artifact bundle pickled by `save_artifacts` and loaded by
`load_model` in `app/main.py`: the forest, the imputer fill values and the
ordered feature-name schema. -/
structure Artifacts where
  model : List Tree
  imputerFill : List ℚ
  featureNames : List String

/-- Translated from `app/main.py` lines 98-104: `load_model` opens the
artifact file; a missing file raises `FileNotFoundError` (here: the error
value of the `Except`), otherwise the artifacts are returned. -/
def load_model : Option Artifacts → Except String Artifacts
  | none => .error "FileNotFoundError"
  | some a => .ok a

/-- Translated from `app/main.py` line 498: the model input is built over
the trained feature schema, taking each schema feature from the request
dictionary with default `0`:
`{f: input_data.get(f, 0) for f in feature_names}`. -/
def buildModelInput (featureNames : List String)
    (inputData : List (String × ℚ)) : List ℚ :=
  featureNames.map fun f => (inputData.lookup f).getD 0

/-- The same input builder as the spec words it ("unknown keys ignored,
missing keys imputed"): a known feature key absent from the request is
filled with the stored training-median fill value.  Stated only for
comparison with `buildModelInput`, which is what the code does. -/
def buildModelInputSpec (medianFill : String → ℚ) (featureNames : List String)
    (inputData : List (String × ℚ)) : List ℚ :=
  featureNames.map fun f => (inputData.lookup f).getD (medianFill f)

/-- View a finite list of feature values as the assignment fed to the trees. -/
def vecOf (xs : List ℚ) : ℕ → ℚ := fun i => xs.getD i 0

/-- Translated from `app/main.py` lines 341-349 and 498-501: the serving
path loads the artifacts and, only on success, scores the request; when the
load fails the app shows an error and returns without scoring — there is no
fallback model. -/
def serveScore (disk : Option Artifacts) (inputData : List (String × ℚ)) :
    Option ℚ :=
  match load_model disk with
  | .error _ => none
  | .ok a =>
      some (Forest.predictProba a.model (vecOf (buildModelInput a.featureNames inputData)))

/-- Counterexample for C9: with the artifact missing, the serving path fails
with `FileNotFoundError` — not with a `ModelNotFoundError` as the claim
states; no `ModelNotFoundError` exists in the code. -/
theorem c9_counterexample :
    load_model none = .error "FileNotFoundError" ∧
    "FileNotFoundError" ≠ "ModelNotFoundError" := by
  constructor
  · rfl
  · decide

/-- Claim C9 (amended): when the serialized model artifact is missing at
load time, the serving path fails fast with a `FileNotFoundError` (caught
and surfaced as an error message) and never falls back to scoring with an
untrained default model: no score is produced for any request. -/
theorem c9_missing_artifact_fails_fast (inputData : List (String × ℚ)) :
    load_model none = .error "FileNotFoundError" ∧
    serveScore none inputData = none :=
  ⟨rfl, rfl⟩

lemma lookup_ignores_foreign (f k : String) (x : ℚ)
    (l1 l2 : List (String × ℚ)) (hfk : f ≠ k) :
    List.lookup f (l1 ++ (k, x) :: l2) = List.lookup f (l1 ++ l2) := by
  induction l1 with
  | nil =>
    have hb : (f == k) = false := beq_eq_false_iff_ne.mpr hfk
    simp only [List.nil_append, List.lookup, hb]
  | cons a l ih =>
    simp only [List.cons_append, List.lookup]
    cases hb : f == a.1 <;> simp [hb, ih]

lemma buildModelInput_get (schema : List String) (req : List (String × ℚ))
    {i : ℕ} {f : String} (hf : schema.get? i = some f) :
    (buildModelInput schema req).get? i = some ((req.lookup f).getD 0) := by
  unfold buildModelInput
  rw [List.get?_map, hf]
  rfl

/-- Counterexample for C2: with stored median fill 5 for the only schema
feature and a request missing that feature, the code's input builder fills
`0` while the claimed median-imputation builder fills `5`. -/
theorem c2_counterexample :
    buildModelInput ["age"] [] = [0] ∧
    buildModelInputSpec (fun _ => 5) ["age"] [] = [5] ∧
    buildModelInput ["age"] [] ≠ buildModelInputSpec (fun _ => 5) ["age"] [] := by
  refine ⟨rfl, rfl, ?_⟩
  decide

/-- Claim C2 (amended): the scoring call builds the model input restricted
to the fixed trained feature schema — every unknown feature key in the
request is ignored (not an error) — and every known feature key absent from
the request is filled with the constant `0` (the loaded imputer's stored
medians are not applied at inference); a present key contributes its value
at the feature's schema position. -/
theorem c2_model_input_schema (schema : List String)
    (req l1 l2 : List (String × ℚ)) (k : String) (x : ℚ) :
    (k ∉ schema →
      buildModelInput schema (l1 ++ (k, x) :: l2) = buildModelInput schema (l1 ++ l2)) ∧
    (∀ i f, schema.get? i = some f → req.lookup f = none →
      (buildModelInput schema req).get? i = some 0) ∧
    (∀ i f y, schema.get? i = some f → req.lookup f = some y →
      (buildModelInput schema req).get? i = some y) := by
  refine ⟨?_, ?_, ?_⟩
  · intro hk
    unfold buildModelInput
    refine List.map_congr_left ?_
    intro f hf
    rw [lookup_ignores_foreign f k x l1 l2 fun h => hk (h ▸ hf)]
  · intro i f hf hnone
    rw [buildModelInput_get schema req hf, hnone]
    rfl
  · intro i f y hf hsome
    rw [buildModelInput_get schema req hf, hsome]
    rfl

/-- Witness for C2 (amended) on a two-feature schema: an unknown key "z" is
dropped, the absent known key "a" is filled with 0, and the present key "b"
keeps its value 7. -/
theorem c2_model_input_schema_witness :
    buildModelInput ["a", "b"] [("z", 9), ("b", 7)] =
      buildModelInput ["a", "b"] [("b", 7)] ∧
    (buildModelInput ["a", "b"] [("b", 7)]).get? 0 = some 0 ∧
    (buildModelInput ["a", "b"] [("b", 7)]).get? 1 = some 7 :=
  ⟨(c2_model_input_schema ["a", "b"] [] [] [("b", 7)] "z" 9).1 (by decide),
   (c2_model_input_schema ["a", "b"] [("b", 7)] [] [] "z" 9).2.1 0 "a" rfl rfl,
   (c2_model_input_schema ["a", "b"] [("b", 7)] [] [] "z" 9).2.2 1 "b" 7 rfl rfl⟩

/-- Translated from `app/main.py` lines 156-170 (`create_gauge_chart`): the
risk label assigned to a probability by the threshold branching on
0.15, 0.30 and 0.50. -/
def riskLabel (probability : ℚ) : String :=
  if probability < 15/100 then "低リスク"
  else if probability < 30/100 then "やや注意"
  else if probability < 50/100 then "注意"
  else "高リスク"

/-- The four risk bands cut out of `[0,1]` by the gauge thresholds. -/
def riskRegion : Fin 4 → ℚ → Prop
  | 0, p => p < 15/100
  | 1, p => 15/100 ≤ p ∧ p < 30/100
  | 2, p => 30/100 ≤ p ∧ p < 50/100
  | 3, p => 50/100 ≤ p

/-- The label of each risk band, in band order. -/
def riskLabelOf : Fin 4 → String
  | 0 => "低リスク"
  | 1 => "やや注意"
  | 2 => "注意"
  | 3 => "高リスク"

/-- Claim C10: for every probability in `[0,1]`, the gauge's threshold
branching is total and mutually exclusive — exactly one of the four risk
bands contains the probability — and `riskLabel` assigns precisely that
band's label. -/
theorem c10_risk_bands_partition (p : ℚ) (h0 : 0 ≤ p) (h1 : p ≤ 1) :
    (∃! i : Fin 4, riskRegion i p) ∧
    ∀ i : Fin 4, riskRegion i p → riskLabel p = riskLabelOf i := by
  by_cases hA : p < 15/100
  · have hL : riskLabel p = "低リスク" := by
      rw [riskLabel, if_pos hA]
    refine ⟨⟨0, hA, ?_⟩, ?_⟩
    · intro j hj
      fin_cases j <;> simp_all [riskRegion] <;> linarith
    · intro i hi
      fin_cases i <;> simp_all [riskRegion, riskLabelOf] <;> linarith
  · by_cases hB : p < 30/100
    · have hL : riskLabel p = "やや注意" := by
        rw [riskLabel, if_neg hA, if_pos hB]
      refine ⟨⟨1, ⟨le_of_not_lt hA, hB⟩, ?_⟩, ?_⟩
      · intro j hj
        fin_cases j <;> simp_all [riskRegion] <;> linarith
      · intro i hi
        fin_cases i <;> simp_all [riskRegion, riskLabelOf] <;> linarith
    · by_cases hC : p < 50/100
      · have hL : riskLabel p = "注意" := by
          rw [riskLabel, if_neg hA, if_neg hB, if_pos hC]
        refine ⟨⟨2, ⟨le_of_not_lt hB, hC⟩, ?_⟩, ?_⟩
        · intro j hj
          fin_cases j <;> simp_all [riskRegion] <;> linarith
        · intro i hi
          fin_cases i <;> simp_all [riskRegion, riskLabelOf] <;> linarith
      · have hL : riskLabel p = "高リスク" := by
          rw [riskLabel, if_neg hA, if_neg hB, if_neg hC]
        refine ⟨⟨3, le_of_not_lt hC, ?_⟩, ?_⟩
        · intro j hj
          fin_cases j <;> simp_all [riskRegion] <;> linarith
        · intro i hi
          fin_cases i <;> simp_all [riskRegion, riskLabelOf] <;> linarith

/-- Witness for C10 at probability 1/5 (the "やや注意" band). -/
theorem c10_risk_bands_partition_witness :
    (∃! i : Fin 4, riskRegion i (1/5)) ∧
    ∀ i : Fin 4, riskRegion i (1/5) → riskLabel (1/5) = riskLabelOf i :=
  c10_risk_bands_partition (1/5) (by norm_num) (by norm_num)

/-- The sort key of `create_shap_waterfall` (`app/main.py` line 225): the
absolute SHAP value of the feature at schema index `i`. -/
def absKey (vals : List ℚ) (i : ℕ) : ℚ := |vals.getD i 0|

/-- Ascending comparison of schema indices by absolute SHAP value. -/
def keyLe (vals : List ℚ) (i j : ℕ) : Prop := absKey vals i ≤ absKey vals j

instance (vals : List ℚ) : DecidableRel (keyLe vals) :=
  fun i j => inferInstanceAs (Decidable (absKey vals i ≤ absKey vals j))

/-- Ascending lexicographic order: absolute SHAP value first, schema index
as tie-break. -/
def keyLex (vals : List ℚ) (i j : ℕ) : Prop :=
  absKey vals i < absKey vals j ∨ (absKey vals i = absKey vals j ∧ i ≤ j)

instance (vals : List ℚ) : DecidableRel (keyLex vals) :=
  fun i j => inferInstanceAs (Decidable (_ ∨ _))

instance (vals : List ℚ) : IsTotal ℕ (keyLex vals) where
  total i j := by
    rcases lt_trichotomy (absKey vals i) (absKey vals j) with h | h | h
    · exact Or.inl (Or.inl h)
    · rcases le_total i j with hij | hij
      · exact Or.inl (Or.inr ⟨h, hij⟩)
      · exact Or.inr (Or.inr ⟨h.symm, hij⟩)
    · exact Or.inr (Or.inl h)

instance (vals : List ℚ) : IsTrans ℕ (keyLex vals) where
  trans a b c hab hbc := by
    rcases hab with h1 | ⟨e1, le1⟩
    · rcases hbc with h2 | ⟨e2, _⟩
      · exact Or.inl (h1.trans h2)
      · exact Or.inl (e2 ▸ h1)
    · rcases hbc with h2 | ⟨e2, le2⟩
      · exact Or.inl (e1 ▸ h2)
      · exact Or.inr ⟨e1.trans e2, le1.trans le2⟩

/-- Translated from `app/main.py` line 226: `np.argsort(abs_vals)` — a
stable ascending sort of the schema indices by absolute SHAP value (numpy's
sort is stable on arrays of this size, where it runs insertion sort). -/
def argsortAbs (vals : List ℚ) : List ℕ :=
  List.insertionSort (keyLe vals) (List.range vals.length)

/-- Translated from `app/main.py` line 226: `np.argsort(abs_vals)[::-1][:10]`
— reverse the stable ascending argsort and keep the top ten indices; the
ranked factors of the waterfall chart are read off in this order. -/
def rankedFactorIdx (vals : List ℚ) : List ℕ :=
  ((argsortAbs vals).reverse).take 10

lemma orderedInsert_keyLe_eq_keyLex (vals : List ℚ) (a : ℕ) (s : List ℕ)
    (h : ∀ b ∈ s, a < b) :
    List.orderedInsert (keyLe vals) a s = List.orderedInsert (keyLex vals) a s := by
  induction s with
  | nil => rfl
  | cons b s ih =>
    have hab : a < b := h b (List.mem_cons_self b s)
    simp only [List.orderedInsert]
    by_cases hk : keyLe vals a b
    · rw [if_pos hk, if_pos ?_]
      rcases lt_or_eq_of_le hk with h1 | h1
      · exact Or.inl h1
      · exact Or.inr ⟨h1, le_of_lt hab⟩
    · rw [if_neg hk, if_neg ?_, ih fun c hc => h c (List.mem_cons_of_mem b hc)]
      rintro (h1 | ⟨h1, -⟩)
      · exact hk (le_of_lt h1)
      · exact hk (le_of_eq h1)

lemma insertionSort_keyLe_eq_keyLex (vals : List ℚ) (l : List ℕ)
    (hl : List.Pairwise (· < ·) l) :
    List.insertionSort (keyLe vals) l = List.insertionSort (keyLex vals) l := by
  induction l with
  | nil => rfl
  | cons a l ih =>
    rcases List.pairwise_cons.mp hl with ⟨ha, hl2⟩
    simp only [List.insertionSort]
    rw [ih hl2]
    refine orderedInsert_keyLe_eq_keyLex vals a _ ?_
    intro b hb
    exact ha b ((List.perm_insertionSort (keyLex vals) l).mem_iff.mp hb)

lemma argsortAbs_sorted_lex (vals : List ℚ) :
    List.Pairwise (keyLex vals) (argsortAbs vals) := by
  unfold argsortAbs
  rw [insertionSort_keyLe_eq_keyLex vals _ (List.pairwise_lt_range vals.length)]
  exact List.sorted_insertionSort (keyLex vals) (List.range vals.length)

lemma argsortAbs_nodup (vals : List ℚ) : (argsortAbs vals).Nodup :=
  ((List.perm_insertionSort (keyLe vals) (List.range vals.length)).nodup_iff).mpr
    (List.nodup_range vals.length)

/-- Claim C3 (amended): the ranked factor list is ordered by nonincreasing
absolute contribution — strictly descending whenever magnitudes are
distinct — and indices with exactly tied absolute contributions appear in
descending (reversed) schema-index order. -/
theorem c3_ranked_factors_order (vals : List ℚ) :
    List.Pairwise (fun i j => absKey vals j < absKey vals i ∨
      (absKey vals j = absKey vals i ∧ j < i)) (rankedFactorIdx vals) := by
  have hstrict : List.Pairwise (fun i j => absKey vals i < absKey vals j ∨
      (absKey vals i = absKey vals j ∧ i < j)) (argsortAbs vals) := by
    have hcomb := (argsortAbs_sorted_lex vals).and (argsortAbs_nodup vals)
    refine hcomb.imp ?_
    rintro i j ⟨hlex | ⟨he, hle⟩, hne⟩
    · exact Or.inl hlex
    · exact Or.inr ⟨he, lt_of_le_of_ne hle hne⟩
  have hrev : List.Pairwise (fun i j => absKey vals j < absKey vals i ∨
      (absKey vals j = absKey vals i ∧ j < i)) ((argsortAbs vals).reverse) := by
    rw [List.pairwise_reverse]
    refine hstrict.imp ?_
    rintro i j (h | ⟨he, hlt⟩)
    · exact Or.inl h
    · exact Or.inr ⟨he, hlt⟩
  exact hrev.sublist (List.take_sublist 10 _)

/-- Counterexample for C3: two exactly tied contributions are ranked in
reversed schema-index order `[1, 0]`, not in original schema-index order as
the claim states: the list `[1, 0]` violates the claimed tie ordering. -/
theorem c3_counterexample :
    rankedFactorIdx [1, 1] = [1, 0] ∧
    ¬ List.Pairwise (fun i j => absKey [1, 1] i > absKey [1, 1] j ∨
      (absKey [1, 1] i = absKey [1, 1] j ∧ i < j)) (rankedFactorIdx [1, 1]) := by
  constructor
  · decide
  · decide

/-- A training row: the feature values and the binary outcome label. -/
abbrev Row := List ℚ × Bool

/-- Modelled from the spec (5, 9): one step of the seeded deterministic
pseudo-random sequence used for bootstrap sampling (a linear congruential
generator). -/
def lcg (s : ℕ) : ℕ := (s * 1103515245 + 12345) % 2147483648

/-- Draw `k` bootstrap indices below `n` from the seeded sequence, reading
off one row per step. -/
def bootstrapGo (rows : List Row) (n : ℕ) : ℕ → ℕ → List Row
  | 0, _ => []
  | k + 1, s =>
      let s2 := lcg s
      rows.getD (s2 % n) ([], false) :: bootstrapGo rows n k s2

/-- Modelled from the spec (4.3): a bootstrap sample — sampling with
replacement, sample size equal to the input size — drawn from the seeded
deterministic sequence. -/
def bootstrap (rows : List Row) (seed : ℕ) : List Row :=
  bootstrapGo rows rows.length rows.length seed

/-- Number of positively labelled rows. -/
def countPos (rows : List Row) : ℕ := (rows.filter fun r => r.2).length

/-- Modelled from the spec (4.2): Gini impurity
`1 − Σ_c p_c²` over the two class proportions. -/
def gini (rows : List Row) : ℚ :=
  if rows.length = 0 then 0
  else
    1 - ((countPos rows : ℚ) / (rows.length : ℚ)) ^ 2 -
      (((rows.length - countPos rows : ℕ) : ℚ) / (rows.length : ℚ)) ^ 2

/-- The value of feature `f` in a row (schema-position based). -/
def featVal (r : Row) (f : ℕ) : ℚ := r.1.getD f 0

/-- Rows sent to the left child of a split (`value ≤ threshold`). -/
def splitL (f : ℕ) (t : ℚ) (rows : List Row) : List Row :=
  rows.filter fun r => decide (featVal r f ≤ t)

/-- Rows sent to the right child of a split (`value > threshold`). -/
def splitR (f : ℕ) (t : ℚ) (rows : List Row) : List Row :=
  rows.filter fun r => decide (t < featVal r f)

/-- Modelled from the spec (4.2): impurity reduction of a candidate split —
parent impurity minus the sample-weighted average of the children's. -/
def giniReduction (rows : List Row) (f : ℕ) (t : ℚ) : ℚ :=
  gini rows -
    (((splitL f t rows).length : ℚ) * gini (splitL f t rows) +
      ((splitR f t rows).length : ℚ) * gini (splitR f t rows)) / (rows.length : ℚ)

/-- Candidate thresholds of a feature: its observed values, in ascending
order without duplicates (spec 4.2: "evaluate all candidate thresholds",
ties broken by lowest threshold). -/
def thresholds (f : ℕ) (rows : List Row) : List ℚ :=
  (List.insertionSort (fun a b => a ≤ b) (rows.map fun r => featVal r f)).dedup

/-- All candidate splits, enumerated by ascending feature index and then
ascending threshold, so that keeping the first strict maximum of the
reduction realises the spec's tie-break (lowest feature, then lowest
threshold). -/
def candidateSplits (nf : ℕ) (rows : List Row) : List (ℕ × ℚ) :=
  (List.range nf).flatMap fun f => (thresholds f rows).map fun t => (f, t)

/-- Training-configuration constants of `scripts/train_model.py`
(`RandomForestClassifier(n_estimators=200, max_depth=10,
min_samples_split=10, min_samples_leaf=5, random_state=42)`), and the
15-feature schema length. -/
def minSamplesSplit : ℕ := 10

def minSamplesLeaf : ℕ := 5

def maxDepth : ℕ := 10

def nEstimators : ℕ := 200

def randomState : ℕ := 42

def numFeatures : ℕ := 15

/-- Fold step keeping the best candidate split so far: children must respect
`min_samples_leaf`, and only a strictly larger impurity reduction replaces
the incumbent, so the first best candidate (lowest feature index, lowest
threshold) wins ties. -/
def stepBest (rows : List Row) (acc : Option (ℕ × ℚ) × ℚ) (c : ℕ × ℚ) :
    Option (ℕ × ℚ) × ℚ :=
  if (splitL c.1 c.2 rows).length < minSamplesLeaf then acc
  else if (splitR c.1 c.2 rows).length < minSamplesLeaf then acc
  else if acc.2 < giniReduction rows c.1 c.2 then (some c, giniReduction rows c.1 c.2)
  else acc

/-- Modelled from the spec (4.2): the best admissible split of a node, if
any candidate achieves a positive impurity reduction. -/
def bestSplit (nf : ℕ) (rows : List Row) : Option (ℕ × ℚ) :=
  ((candidateSplits nf rows).foldl (stepBest rows) (none, 0)).1

/-- A leaf stores the class distribution of the rows that reached it. -/
def mkLeaf (rows : List Row) : Tree :=
  Tree.leaf (rows.length : ℚ) ((countPos rows : ℚ) / (rows.length : ℚ))

/-- Modelled from the spec (4.2): recursive binary splitting with the
stopping rules — depth budget exhausted, node smaller than
`min_samples_split`, or no admissible positive-reduction split — forcing a
leaf. -/
def growTree (nf : ℕ) : ℕ → List Row → Tree
  | 0, rows => mkLeaf rows
  | d + 1, rows =>
      if rows.length < minSamplesSplit then mkLeaf rows
      else
        match bestSplit nf rows with
        | none => mkLeaf rows
        | some (f, t) =>
            Tree.node f t (growTree nf d (splitL f t rows)) (growTree nf d (splitR f t rows))

/-- Modelled from the spec (4.3): train the tree of one bagging iteration on
a bootstrap sample drawn from the seed of that iteration. -/
def trainTree (rows : List Row) (seed : ℕ) : Tree :=
  growTree numFeatures maxDepth (bootstrap rows seed)

/-- Modelled from the spec (4.3): the forest of `n` trees, tree `i` trained
on the bootstrap sample seeded by `seed + i`. -/
def trainForest (rows : List Row) (seed : ℕ) (n : ℕ) : List Tree :=
  (List.range n).map fun i => trainTree rows (seed + i)

/-- One training run whose tree-training tasks execute in the order given by
`sched` (modelling the worker-pool scheduling of the parallel training,
spec 5): each finished task is recorded with its iteration index. -/
def trainScheduled (sched : List ℕ) (rows : List Row) (seed : ℕ) :
    List (ℕ × Tree) :=
  sched.map fun i => (i, trainTree rows (seed + i))

/-- Reassemble a finished run into the ordered ensemble by iteration index. -/
def reassemble (n : ℕ) (results : List (ℕ × Tree)) : List Tree :=
  (List.range n).map fun i => (results.lookup i).getD (Tree.leaf 0 0)

lemma lookup_map_pair (f : ℕ → Tree) (l : List ℕ) (i : ℕ) (h : i ∈ l) :
    (l.map fun j => (j, f j)).lookup i = some (f i) := by
  induction l with
  | nil => cases h
  | cons a l ih =>
    simp only [List.map_cons, List.lookup]
    by_cases hia : i = a
    · subst hia
      simp
    · have hb : (i == a) = false := beq_eq_false_iff_ne.mpr hia
      rw [hb]
      exact ih ((List.mem_cons.mp h).resolve_left hia)

lemma reassemble_trainScheduled (rows : List Row) (seed n : ℕ) (sched : List ℕ)
    (h : ∀ i ∈ List.range n, i ∈ sched) :
    reassemble n (trainScheduled sched rows seed) = trainForest rows seed n := by
  unfold reassemble trainScheduled trainForest
  refine List.map_congr_left ?_
  intro i hi
  rw [lookup_map_pair (fun j => trainTree rows (seed + j)) sched i (h i hi)]
  rfl

/-- Claim C8: two training runs on identical data with the same seed — even
with different task-scheduling orders over the bagging iterations — produce
identical (bit-identical in the model) tree structures, and scoring the same
query vector against the two resulting artifacts yields identical
attribution results (base value, per-feature contributions and predicted
probability). -/
theorem c8_training_reproducible (rows : List Row) (seed n : ℕ) (v : ℕ → ℚ)
    (s1 s2 : List ℕ) (h1 : s1.Perm (List.range n)) (h2 : s2.Perm (List.range n)) :
    reassemble n (trainScheduled s1 rows seed) =
      reassemble n (trainScheduled s2 rows seed) ∧
    Forest.baseValue (reassemble n (trainScheduled s1 rows seed)) =
      Forest.baseValue (reassemble n (trainScheduled s2 rows seed)) ∧
    Forest.contrib (reassemble n (trainScheduled s1 rows seed)) v =
      Forest.contrib (reassemble n (trainScheduled s2 rows seed)) v ∧
    Forest.predictProba (reassemble n (trainScheduled s1 rows seed)) v =
      Forest.predictProba (reassemble n (trainScheduled s2 rows seed)) v := by
  have e1 := reassemble_trainScheduled rows seed n s1 fun i hi => h1.mem_iff.mpr hi
  have e2 := reassemble_trainScheduled rows seed n s2 fun i hi => h2.mem_iff.mpr hi
  rw [e1, e2]
  exact ⟨rfl, rfl, rfl, rfl⟩

/-- A small concrete training table for the C8 witness. -/
def demoRows : List Row := [([1, 0], true), ([0, 1], false), ([1, 1], true)]

/-- Witness for C8: two runs over the same data and seed 42, one scheduled
`[0, 1]` and the other `[1, 0]`, agree tree-for-tree and in attribution. -/
theorem c8_training_reproducible_witness :
    reassemble 2 (trainScheduled [0, 1] demoRows 42) =
      reassemble 2 (trainScheduled [1, 0] demoRows 42) ∧
    Forest.baseValue (reassemble 2 (trainScheduled [0, 1] demoRows 42)) =
      Forest.baseValue (reassemble 2 (trainScheduled [1, 0] demoRows 42)) ∧
    Forest.contrib (reassemble 2 (trainScheduled [0, 1] demoRows 42)) (fun _ => 0) =
      Forest.contrib (reassemble 2 (trainScheduled [1, 0] demoRows 42)) (fun _ => 0) ∧
    Forest.predictProba (reassemble 2 (trainScheduled [0, 1] demoRows 42)) (fun _ => 0) =
      Forest.predictProba (reassemble 2 (trainScheduled [1, 0] demoRows 42)) (fun _ => 0) :=
  c8_training_reproducible demoRows 42 2 (fun _ => 0) [0, 1] [1, 0]
    (by decide) (by decide)
